import Mathlib

/-!
Verification development for the Actualimporter repository.

The embedded code is the backend half of `frontend/src/App.jsx`: the helpers
`normalizeCellValue`, `parseAmount`, `mapRows`, `groupRows`, and the
`POST /api/import` route handler (import orchestration).  Rows and the other
JSON objects are modelled as association lists of string entries, in the
enumeration order of the underlying JavaScript object; values that may be
`undefined` in JavaScript are modelled as `Option`.
-/

namespace Actualimporter

/-- Characters removed by JavaScript `String.prototype.trim` (WhiteSpace and
LineTerminator code points per ECMA-262). -/
def isJsWhitespace (c : Char) : Bool :=
  c == ' ' || c == '\t' || c == '\n' || c == '\r' ||
  c == '\x0b' || c == '\x0c' || c.toNat == 0xA0 ||
  (0x2000 ≤ c.toNat && c.toNat ≤ 0x200A) ||
  c.toNat == 0x1680 || c.toNat == 0x2028 || c.toNat == 0x2029 ||
  c.toNat == 0x202F || c.toNat == 0x205F || c.toNat == 0x3000 || c.toNat == 0xFEFF

/-- JavaScript `s.trim()`. -/
def jsTrim (s : String) : String :=
  ⟨((s.data.dropWhile isJsWhitespace).reverse.dropWhile isJsWhitespace).reverse⟩

/-- A parsed CSV row: a JavaScript object from column name to cell text,
as an association list in property-enumeration order. -/
abbrev Row : Type := List (String × String)

/-- JavaScript property read `obj[key]` on a string-valued object: own-entry
lookup, `none` modelling `undefined`.  When `key` names an `Object.prototype`
member absent as an own property, the real read returns the inherited member
(an engine-dependent function or object) instead of `undefined`; this model
does not represent that, so theorems whose truth depends on reads of such
keys carry an explicit `protoMember`-exclusion hypothesis. -/
def rowGet (r : List (String × String)) (c : String) : Option String :=
  (r.find? (fun p => p.1 == c)).map Prod.snd

/-- `normalizeCellValue` (App.jsx:817): `undefined`/`null` becomes the empty
string, anything else is stringified and trimmed.  Values are already text. -/
def normalizeCellValue (value : Option String) : String :=
  match value with
  | none => ""
  | some s => jsTrim s

/-- The `.replace(/\./g, '')` step of `parseAmount`: drop every dot. -/
def removeDots (s : String) : String :=
  ⟨s.data.filter (fun c => c ≠ '.')⟩

/-- Replace the first comma of a character list by a dot. -/
def replaceFirstCommaAux : List Char → List Char
  | [] => []
  | c :: cs => if c = ',' then '.' :: cs else c :: replaceFirstCommaAux cs

/-- The `.replace(',', '.')` step of `parseAmount`: a string pattern in
JavaScript replaces only the first occurrence. -/
def replaceFirstComma (s : String) : String :=
  ⟨replaceFirstCommaAux s.data⟩

/-- The `.replace(/[^\d.-]/g, '')` step of `parseAmount`: keep only ASCII
digits, dots and minus signs. -/
def stripNonAmount (s : String) : String :=
  ⟨s.data.filter (fun c => c.isDigit || c = '.' || c = '-')⟩

/-- Base-10 value of a digit list. -/
def digitsVal (cs : List Char) : ℕ :=
  cs.foldl (fun a c => 10 * a + (c.toNat - 48)) 0

/-- Value of a nonempty all-digit character list, `none` otherwise. -/
def digitsToNat? (cs : List Char) : Option ℕ :=
  if cs ≠ [] ∧ cs.all Char.isDigit then some (digitsVal cs) else none

/-- Split a character list on dots. -/
def splitOnDot : List Char → List (List Char)
  | [] => [[]]
  | c :: rest =>
    match splitOnDot rest with
    | [] => [[]]
    | h :: t => if c = '.' then [] :: h :: t else (c :: h) :: t

/-- JavaScript `Number(s)` restricted to the alphabet that can survive the
strip step of `parseAmount` (digits, `.`, `-`), which is the only way the
code invokes it: the empty string converts to `0`, an optional leading minus
followed by `digits`, `digits.digits`, `.digits` or `digits.` converts to the
signed decimal value, and everything else is `NaN` (modelled as `none`).
Values are exact rationals: the float64 rounding of the real `Number` and its
overflow to `Infinity` (digit strings beyond about 1e308, which the code's
`isFinite` guard then turns into `null`) are not modelled. -/
def jsNumberOfStripped (s : String) : Option ℚ :=
  match s.data with
  | [] => some 0
  | c :: cs =>
    let neg := c = '-'
    let body := if neg then cs else c :: cs
    let val? : Option ℚ :=
      match splitOnDot body with
      | [w] => (digitsToNat? w).map (fun n => (n : ℚ))
      | [w, f] =>
          if w = [] ∧ f = [] then none
          else
            match (if w = [] then some 0 else digitsToNat? w),
                  (if f = [] then some 0 else digitsToNat? f) with
            | some wn, some fn => some ((wn : ℚ) + (fn : ℚ) / (10 : ℚ) ^ f.length)
            | _, _ => none
      | _ => none
    val?.map (fun q => if neg then -q else q)

/-- `parseAmount` (App.jsx:825): trim, empty means absent, then remove dots,
turn the first comma into a decimal point, strip every other character and
convert with `Number`, returning `none` when the result is not finite. -/
def parseAmount (rawValue : Option String) : Option ℚ :=
  let text := normalizeCellValue rawValue
  if text = "" then none
  else jsNumberOfStripped (stripNonAmount (replaceFirstComma (removeDots text)))

/-- A mapping rule object as sent by the client: a loosely-typed record with a
`type` discriminator; absent properties are `none`. -/
structure MappingRule where
  type : String
  column : Option String := none
  columns : Option (List String) := none
  separator : Option String := none
deriving DecidableEq

/-- The request's `mapping` object: entries from target-field name to rule (a
`null` rule is `none`), in property-enumeration order. -/
abbrev MappingCfg : Type := List (String × Option MappingRule)

/-- A mapped row produced by `mapRows`: the object built by the inner loop. -/
abbrev MappedRow : Type := List (String × String)

/-- JavaScript property read on a mapped row. -/
def getField (m : List (String × String)) (f : String) : Option String :=
  (m.find? (fun p => p.1 == f)).map Prod.snd

/-- The rule dispatch inside `mapRows` (App.jsx:843): a falsy rule yields the
empty string; a `merge` rule trims each referenced column, drops empties and
joins with the separator (`?? ' '`, so `null`/`undefined` becomes one space);
any other rule copies one column.  `row[rule.column]` with an `undefined`
column coerces the property key to the string `"undefined"`. -/
def applyRule (r : Row) (rule : Option MappingRule) : String :=
  match rule with
  | none => ""
  | some rule =>
    if rule.type = "merge" then
      String.intercalate (rule.separator.getD " ")
        (((rule.columns.getD []).map (fun c => normalizeCellValue (rowGet r c))).filter
          (fun v => v ≠ ""))
    else
      normalizeCellValue (rowGet r (rule.column.getD "undefined"))

/-- The per-row body of `mapRows`: one entry per entry of the mapping, except
that the assignment `mappedRow[targetField] = v` (App.jsx:844/853/855) for
the key `"__proto__"` invokes the inherited `Object.prototype` accessor,
which silently ignores string values and creates no own property — so a
mapping entry named `__proto__` produces no field.  Every other target-field
name (including other prototype member names such as `toString`, which are
writable data properties) creates an ordinary own property. -/
def mapRowFields (mapping : MappingCfg) (r : Row) : MappedRow :=
  (mapping.filter (fun e => e.1 ≠ "__proto__")).map (fun e => (e.1, applyRule r e.2))

/-- `mapRows` (App.jsx:836). -/
def mapRows (rows : List Row) (mapping : MappingCfg) : List MappedRow :=
  rows.map (fun r => mapRowFields mapping r)

/-- The group key of one row under grouping column `c` (App.jsx:871):
trimmed cell value, with the `'(leeg)'` sentinel substituted when falsy. -/
def keyOf (c : String) (r : Row) : String :=
  let v := normalizeCellValue (rowGet r c)
  if v = "" then "(leeg)" else v

/-- The own property names of `Object.prototype` (ECMA-262 plus the Annex B
accessor members present in Node/V8). -/
def protoMember (s : String) : Bool :=
  s ∈ ["constructor", "hasOwnProperty", "isPrototypeOf", "propertyIsEnumerable",
       "toLocaleString", "toString", "valueOf", "__proto__",
       "__defineGetter__", "__defineSetter__", "__lookupGetter__", "__lookupSetter__"]

/-- The pure append step on the grouping object: append the row to an
existing key's list, or create the key at the end of the object. -/
def upsert (acc : List (String × List Row)) (k : String) (r : Row) :
    List (String × List Row) :=
  match acc with
  | [] => [(k, [r])]
  | (k0, l) :: rest => if k0 = k then (k0, l ++ [r]) :: rest else (k0, l) :: upsert rest k r

/-- One iteration of the `reduce` in `groupRows` (App.jsx:870-877), with the
prototype chain of the accumulator object: `if (!acc[groupKey])` reads
through the chain, so for an own key (always an array, truthy) the row is
pushed; for a key naming an inherited `Object.prototype` member the member
is truthy, creation is skipped, and `acc[groupKey].push(row)` throws
`TypeError` (modelled as `none`); otherwise the read is `undefined`, the key
is created and the row pushed. -/
def upsertJs (acc : List (String × List Row)) (k : String) (r : Row) :
    Option (List (String × List Row)) :=
  if k ∈ acc.map Prod.fst then some (upsert acc k r)
  else if protoMember k then none
  else some (acc ++ [(k, [r])])

/-- The fold of `groupRows` over the rows, propagating the `TypeError`. -/
def groupRowsAux (c : String) : List Row → List (String × List Row) →
    Option (List (String × List Row))
  | [], acc => some acc
  | r :: rs, acc =>
    match upsertJs acc (keyOf c r) r with
    | none => none
    | some acc2 => groupRowsAux c rs acc2

/-- `groupRows` (App.jsx:865): a falsy `groupByColumn` yields the single
group `'all'`; otherwise rows are folded into a keyed object.  The result is
`none` when the fold throws: a trimmed grouping value naming an
`Object.prototype` member crashes the real function (see `upsertJs`). -/
def groupRows (rows : List Row) (groupByColumn : Option String) :
    Option (List (String × List Row)) :=
  if groupByColumn.getD "" = "" then some [("all", rows)]
  else groupRowsAux (groupByColumn.getD "") rows []

/-- Whether a string is a JavaScript array-index property key: the canonical
decimal form of an integer below 2^32 - 1. -/
def isArrayIndex (s : String) : Bool :=
  match digitsToNat? s.data with
  | some n => decide (n < 4294967295) && Nat.repr n == s
  | none => false

/-- Numeric value of an array-index key (0 on other keys, never compared). -/
def arrayIndexVal (s : String) : ℕ := (digitsToNat? s.data).getD 0

/-- Insert an entry into a list of array-index entries, keeping ascending
numeric key order. -/
def insertByIdx (p : String × List Row) :
    List (String × List Row) → List (String × List Row)
  | [] => [p]
  | q :: qs => if arrayIndexVal p.1 ≤ arrayIndexVal q.1 then p :: q :: qs
               else q :: insertByIdx p qs

/-- `Object.entries` on the grouping object: per ECMA-262 [[OwnPropertyKeys]],
array-index keys come first in ascending numeric order, then the remaining
string keys in property-creation order. -/
def jsEntries (o : List (String × List Row)) : List (String × List Row) :=
  (o.filter (fun p => isArrayIndex p.1)).foldr insertByIdx []
    ++ o.filter (fun p => !isArrayIndex p.1)

/-- A normalized transaction as built at App.jsx:1076: the three text fields
read back from the mapped row (`none` when the mapping produced no such
property) and the parsed amount. -/
structure NormalizedTx where
  date : Option String
  payee : Option String
  notes : Option String
  amount : Option ℚ
deriving DecidableEq

/-- The object literal of App.jsx:1076-1081. -/
def normalizeTx (m : MappedRow) : NormalizedTx :=
  { date := getField m "date"
    payee := getField m "payee"
    notes := getField m "notes"
    amount := parseAmount (getField m "amount") }

/-- Validity as used both for `invalidCount` (App.jsx:1083, negated) and for
the live-call filter (App.jsx:1120): amount present and date truthy. -/
def validTx (t : NormalizedTx) : Bool :=
  t.amount.isSome && !(t.date.getD "" == "")

/-- The `normalized` list computed for one group (App.jsx:1074-1081). -/
def normalizeGroup (mapping : MappingCfg) (grows : List Row) : List NormalizedTx :=
  (mapRows grows mapping).map normalizeTx

/-- One element of the `result` array (App.jsx:1085-1091). -/
structure GroupResult where
  group : String
  accountId : Option String
  transactionCount : ℕ
  invalidCount : ℕ
  preview : List NormalizedTx
deriving DecidableEq

/-- One call to the ledger service's transaction-import endpoint: the fetch
at App.jsx:1111 together with its JSON body. -/
structure LedgerCall where
  url : String
  password : String
  budgetId : String
  accountId : String
  transactions : List NormalizedTx
deriving DecidableEq

/-- Response sent by the `/api/import` route: a 400 error, the 502 ledger
failure (error plus forwarded detail), or the 200 summary object. -/
inductive ImportOutcome where
  | badRequest (error : String)
  | ledgerFailed (error detail : String)
  | ok (dryRun : Bool) (groups : List GroupResult)
      (totalTransactions totalInvalid : ℕ)
deriving DecidableEq

/-- The process environment variables the handler reads. -/
structure Env where
  ACTUAL_SERVER_URL : Option String
  ACTUAL_PASSWORD : Option String
  ACTUAL_BUDGET_ID : Option String
  MOCK_ACTUAL : Option String
deriving DecidableEq

/-- The request's `actualConfig` object. -/
structure ActualCfg where
  serverUrl : Option String := none
  password : Option String := none
  budgetId : Option String := none
deriving DecidableEq

/-- The body of a `POST /api/import` request (App.jsx:1055-1062).  `dryRun`
is `none` when the field is absent, in which case the destructuring default
`= true` applies. -/
structure ImportRequest where
  rows : List Row
  mapping : Option MappingCfg
  groupByColumn : Option String := none
  accountMapping : Option (List (String × String)) := none
  dryRun : Option Bool := none
  actualConfig : Option ActualCfg := none

/-- JavaScript `a || b` on an optional string: falsy (`undefined` or empty)
falls through to the fallback. -/
def jsOr (v : Option String) (fallback : String) : String :=
  match v with
  | none => fallback
  | some s => if s = "" then fallback else s

/-- `(actualConfig?.serverUrl || process.env.ACTUAL_SERVER_URL || '').trim()`
(App.jsx:1097). -/
def resolvedServerUrl (acfg : Option ActualCfg) (env : Env) : String :=
  jsTrim (jsOr (acfg.bind ActualCfg.serverUrl) (jsOr env.ACTUAL_SERVER_URL ""))

/-- `actualConfig?.password || process.env.ACTUAL_PASSWORD || ''` (App.jsx:1098). -/
def resolvedPassword (acfg : Option ActualCfg) (env : Env) : String :=
  jsOr (acfg.bind ActualCfg.password) (jsOr env.ACTUAL_PASSWORD "")

/-- `actualConfig?.budgetId || process.env.ACTUAL_BUDGET_ID || ''` (App.jsx:1099). -/
def resolvedBudgetId (acfg : Option ActualCfg) (env : Env) : String :=
  jsOr (acfg.bind ActualCfg.budgetId) (jsOr env.ACTUAL_BUDGET_ID "")

/-- `accountMapping?.[group] || null` (App.jsx:1073): an absent mapping, an
absent key or an empty string all resolve to `null`. -/
def resolveAccount (am : Option (List (String × String))) (k : String) :
    Option String :=
  match am.bind (fun l => rowGet l k) with
  | none => none
  | some s => if s = "" then none else some s

/-- `serverUrl.replace(/\/$/, '')`: drop one trailing slash. -/
def stripTrailingSlash (s : String) : String :=
  if s.endsWith "/" then s.dropRight 1 else s

/-- The fetch issued for one group in live mode (App.jsx:1111-1122), with the
group's transactions filtered to the ones passing validation. -/
def groupCall (env : Env) (acfg : Option ActualCfg) (mapping : MappingCfg)
    (aid : String) (grows : List Row) : LedgerCall :=
  { url := stripTrailingSlash (resolvedServerUrl acfg env) ++ "/api/import-transactions"
    password := resolvedPassword acfg env
    budgetId := resolvedBudgetId acfg env
    accountId := aid
    transactions := (normalizeGroup mapping grows).filter validTx }

/-- The `result.push` record for one group (App.jsx:1085-1091). -/
def mkGroupResult (mapping : MappingCfg) (am : Option (List (String × String)))
    (k : String) (grows : List Row) : GroupResult :=
  { group := k
    accountId := resolveAccount am k
    transactionCount := (normalizeGroup mapping grows).length
    invalidCount := (normalizeGroup mapping grows).countP (fun t => !(validTx t))
    preview := (normalizeGroup mapping grows).take 5 }

/-- The 400 error text for a group with no mapped account (App.jsx:1107). -/
def missingAccountMsg (k : String) : String :=
  "Geen account gekoppeld voor groep \x27" ++ k ++ "\x27."

/-- The 502 error text for a failed ledger call (App.jsx:1127). -/
def ledgerFailedMsg (k : String) : String :=
  "Import naar Actual mislukt voor groep \x27" ++ k ++ "\x27."

/-- The `for (const [group, groupRowsData] of Object.entries(grouped))` loop
of App.jsx:1072-1132 plus the final `res.json` of App.jsx:1134-1139.  The
ledger collaborator is an injected function from call index and call to the
response's `ok` flag and body text; the returned list is the trace of
transaction-import calls actually issued, in order. -/
def processGroups (env : Env) (ledger : ℕ → LedgerCall → Bool × String)
    (dry : Bool) (mapping : MappingCfg) (am : Option (List (String × String)))
    (acfg : Option ActualCfg) :
    List (String × List Row) → List GroupResult → List LedgerCall → ℕ →
      ImportOutcome × List LedgerCall
  | [], acc, calls, _ =>
      (.ok dry acc ((acc.map GroupResult.transactionCount).sum)
        ((acc.map GroupResult.invalidCount).sum), calls)
  | (k, grows) :: rest, acc, calls, idx =>
      let acc2 := acc ++ [mkGroupResult mapping am k grows]
      if dry || env.MOCK_ACTUAL == some "true" then
        processGroups env ledger dry mapping am acfg rest acc2 calls idx
      else if resolvedServerUrl acfg env = "" then
        (.badRequest "ACTUAL_SERVER_URL ontbreekt voor import.", calls)
      else
        match resolveAccount am k with
        | none => (.badRequest (missingAccountMsg k), calls)
        | some aid =>
          let call := groupCall env acfg mapping aid grows
          if (ledger idx call).1 then
            processGroups env ledger dry mapping am acfg rest acc2 (calls ++ [call]) (idx + 1)
          else
            (.ledgerFailed (ledgerFailedMsg k) (ledger idx call).2, calls ++ [call])

/-- The `POST /api/import` handler (App.jsx:1054-1140).  `rows` being an
array is enforced by the type; a missing `mapping` is rejected with 400.  A
`none` outcome models the handler throwing: when `groupRows` raises its
`TypeError` the async handler rejects before the loop, so no response object
is produced and no ledger call was or will be issued (the trace is empty). -/
def handleImport (env : Env) (ledger : ℕ → LedgerCall → Bool × String)
    (req : ImportRequest) : Option ImportOutcome × List LedgerCall :=
  match req.mapping with
  | none => (some (.badRequest "rows en mapping zijn verplicht."), [])
  | some mapping =>
    match groupRows req.rows req.groupByColumn with
    | none => (none, [])
    | some grouped =>
      match processGroups env ledger (req.dryRun.getD true) mapping req.accountMapping
          req.actualConfig (jsEntries grouped) [] [] 0 with
      | (out, calls) => (some out, calls)

/-- Accumulate a key into the list of keys already seen, keeping first-seen
order. -/
def addKey (ks : List String) (k : String) : List String :=
  if k ∈ ks then ks else ks ++ [k]

/-- The keys of a list of strings in first-seen order (the order the spec
asserts for group enumeration). -/
def firstSeen (l : List String) : List String :=
  l.foldl addKey []

/-- Whether a mapped row carries all four target fields, as the spec's field
mapper contract demands. -/
def hasAllTargetFields (m : MappedRow) : Bool :=
  (["date", "amount", "payee", "notes"].all fun f => (getField m f).isSome)

/-- The list stored under a key of the grouping object (empty when absent). -/
def getGroup : List (String × List Row) → String → List Row
  | [], _ => []
  | (k0, l) :: rest, k => if k0 = k then l else getGroup rest k

/-- Environment with no relevant variables set. -/
def env₀ : Env := ⟨none, none, none, none⟩

/-- A ledger collaborator that accepts every call. -/
def ledgerOk : ℕ → LedgerCall → Bool × String := fun _ _ => (true, "")

/-- A ledger collaborator that rejects every call with a detail message. -/
def ledgerFail : ℕ → LedgerCall → Bool × String := fun _ _ => (false, "kapot")

/-- A request-level ledger configuration with a server URL present. -/
def cfg₀ : ActualCfg :=
  { serverUrl := some "http://actual.local/", password := some "pw", budgetId := some "b1" }

/-- A direct-rule mapping for date, amount and payee (notes left unmapped). -/
def mapping₀ : MappingCfg :=
  [("date", some { type := "direct", column := some "Datum" }),
   ("amount", some { type := "direct", column := some "Bedrag" }),
   ("payee", some { type := "direct", column := some "Naam" })]

/-- A well-formed sample row. -/
def row₀ : Row := [("Datum", "01-01-2024"), ("Bedrag", "12,50"), ("Naam", "X")]

/-- A row missing the date column: its transaction fails validation. -/
def rowNoDate : Row := [("Bedrag", "12,50")]

/-! ### Helper lemmas about the grouping object -/

theorem upsert_keys (acc : List (String × List Row)) (k : String) (r : Row) :
    (upsert acc k r).map Prod.fst = addKey (acc.map Prod.fst) k := by
  induction acc with
  | nil => simp [upsert, addKey]
  | cons p rest ih =>
    obtain ⟨k0, l⟩ := p
    by_cases hk : k0 = k
    · simp [upsert, hk, addKey, List.mem_cons]
    · by_cases hm : k ∈ rest.map Prod.fst
      · simp [upsert, hk, ih, addKey, hm, List.mem_cons, Ne.symm hk]
      · simp [upsert, hk, ih, addKey, hm, List.mem_cons, Ne.symm hk]

theorem foldl_upsert_keys (c : String) (rows : List Row) :
    ∀ acc : List (String × List Row),
      ((rows.foldl (fun a r => upsert a (keyOf c r) r) acc).map Prod.fst)
        = (rows.map (keyOf c)).foldl addKey (acc.map Prod.fst) := by
  induction rows with
  | nil => intro acc; simp
  | cons r rows ih =>
    intro acc
    simp only [List.foldl_cons, List.map_cons]
    rw [ih, upsert_keys]

theorem addKey_nodup (ks : List String) (k : String) (h : ks.Nodup) :
    (addKey ks k).Nodup := by
  unfold addKey
  split
  · exact h
  · next hk =>
    refine List.Nodup.append h (List.nodup_singleton k) ?_
    intro a ha hb
    rw [List.mem_singleton] at hb
    exact hk (hb ▸ ha)

theorem foldl_upsert_keys_nodup (c : String) (rows : List Row) :
    ∀ acc : List (String × List Row), ((acc.map Prod.fst).Nodup) →
      (((rows.foldl (fun a r => upsert a (keyOf c r) r) acc)).map Prod.fst).Nodup := by
  induction rows with
  | nil => intro acc h; simpa using h
  | cons r rows ih =>
    intro acc h
    simp only [List.foldl_cons]
    exact ih _ (by rw [upsert_keys]; exact addKey_nodup _ _ h)

theorem getGroup_upsert (acc : List (String × List Row)) (k' : String) (r : Row)
    (k : String) :
    getGroup (upsert acc k' r) k = getGroup acc k ++ (if k' = k then [r] else []) := by
  induction acc with
  | nil =>
    by_cases h : k' = k <;> simp [upsert, getGroup, h]
  | cons p rest ih =>
    obtain ⟨k0, l⟩ := p
    by_cases h0 : k0 = k'
    · subst h0
      by_cases hk : k0 = k <;> simp [upsert, getGroup, hk]
    · by_cases hk : k0 = k
      · subst hk
        have hk' : k' ≠ k0 := fun h => h0 h.symm
        simp [upsert, getGroup, h0, hk']
      · simp [upsert, getGroup, h0, hk, ih]

theorem getGroup_foldl (c : String) (rows : List Row) :
    ∀ (acc : List (String × List Row)) (k : String),
      getGroup (rows.foldl (fun a r => upsert a (keyOf c r) r) acc) k
        = getGroup acc k ++ rows.filter (fun r => keyOf c r == k) := by
  induction rows with
  | nil => intro acc k; simp
  | cons r rows ih =>
    intro acc k
    simp only [List.foldl_cons]
    rw [ih]
    rw [getGroup_upsert]
    by_cases h : keyOf c r = k
    · simp [h, List.filter_cons, List.append_assoc]
    · simp [h, List.filter_cons, List.append_assoc]

theorem getGroup_of_mem :
    ∀ (o : List (String × List Row)), ((o.map Prod.fst).Nodup) →
      ∀ p ∈ o, getGroup o p.1 = p.2 := by
  intro o
  induction o with
  | nil => intro _ p hp; simp at hp
  | cons q rest ih =>
    intro hnd p hp
    obtain ⟨k0, l⟩ := q
    simp only [List.map_cons, List.nodup_cons] at hnd
    rcases List.mem_cons.1 hp with h | h
    · subst h
      simp [getGroup]
    · have hne : k0 ≠ p.1 := by
        intro he
        exact hnd.1 (he ▸ List.mem_map_of_mem Prod.fst h)
      simp only [getGroup, if_neg hne]
      exact ih hnd.2 p h

theorem upsert_join_perm (acc : List (String × List Row)) (k : String) (r : Row) :
    ((upsert acc k r).map Prod.snd).flatten.Perm ((acc.map Prod.snd).flatten ++ [r]) := by
  induction acc with
  | nil => simp [upsert]
  | cons p rest ih =>
    obtain ⟨k0, l⟩ := p
    by_cases h : k0 = k
    · simp only [upsert, if_pos h, List.map_cons, List.flatten_cons, List.append_assoc]
      exact List.Perm.append_left l (List.perm_append_comm)
    · simp only [upsert, if_neg h, List.map_cons, List.flatten_cons]
      refine (List.Perm.append_left l ih).trans ?_
      rw [← List.append_assoc]

theorem foldl_upsert_join_perm (c : String) (rows : List Row) :
    ∀ acc : List (String × List Row),
      ((rows.foldl (fun a r => upsert a (keyOf c r) r) acc).map Prod.snd).flatten.Perm
        ((acc.map Prod.snd).flatten ++ rows) := by
  induction rows with
  | nil => intro acc; simp
  | cons r rows ih =>
    intro acc
    simp only [List.foldl_cons]
    refine (ih _).trans ?_
    have h1 := (upsert_join_perm acc (keyOf c r) r).append_right rows
    refine h1.trans ?_
    rw [List.append_assoc, List.singleton_append]

theorem jsEntries_eq_self (o : List (String × List Row))
    (h : ∀ p ∈ o, isArrayIndex p.1 = false) : jsEntries o = o := by
  have h1 : o.filter (fun p => isArrayIndex p.1) = [] := by
    rw [List.filter_eq_nil_iff]
    intro a ha
    simp [h a ha]
  have h2 : o.filter (fun p => !isArrayIndex p.1) = o := by
    rw [List.filter_eq_self]
    intro a ha
    simp [h a ha]
  simp [jsEntries, h1, h2]

theorem upsert_of_not_mem (acc : List (String × List Row)) (k : String) (r : Row)
    (h : k ∉ acc.map Prod.fst) : upsert acc k r = acc ++ [(k, [r])] := by
  induction acc with
  | nil => simp [upsert]
  | cons p rest ih =>
    obtain ⟨k0, l⟩ := p
    simp only [List.map_cons, List.mem_cons] at h
    push_neg at h
    have hk : k0 ≠ k := fun he => h.1 he.symm
    simp [upsert, hk, ih h.2]

theorem upsertJs_some (acc acc2 : List (String × List Row)) (k : String) (r : Row)
    (h : upsertJs acc k r = some acc2) : acc2 = upsert acc k r := by
  unfold upsertJs at h
  by_cases h1 : k ∈ acc.map Prod.fst
  · rw [if_pos h1] at h
    exact (Option.some.inj h).symm
  · rw [if_neg h1] at h
    by_cases h2 : protoMember k = true
    · rw [if_pos h2] at h; cases h
    · rw [if_neg h2] at h
      rw [← Option.some.inj h]
      exact (upsert_of_not_mem acc k r h1).symm

theorem groupRowsAux_eq_foldl (c : String) :
    ∀ (rows : List Row) (acc G : List (String × List Row)),
      groupRowsAux c rows acc = some G →
      G = rows.foldl (fun a r => upsert a (keyOf c r) r) acc := by
  intro rows
  induction rows with
  | nil =>
    intro acc G h
    simp only [groupRowsAux, Option.some.injEq] at h
    simp [← h]
  | cons r rs ih =>
    intro acc G h
    cases hu : upsertJs acc (keyOf c r) r with
    | none =>
      simp only [groupRowsAux, hu] at h
      exact Option.noConfusion h
    | some acc2 =>
      simp only [groupRowsAux, hu] at h
      have ha := upsertJs_some acc acc2 (keyOf c r) r hu
      subst ha
      simp only [List.foldl_cons]
      exact ih _ G h

/-! ### Claim C5 -/

/-- Claim C5: the specified `parseAmount` vectors.  The first three hold, but
`parseAmount "abc"` evaluates to `0`, not `none`: the strip step leaves the
empty string and JavaScript `Number('')` is `0`, which is finite. -/
theorem parseAmount_vectors :
    parseAmount (some "1.234,56") = some (1234.56 : ℚ)
    ∧ parseAmount (some "-12,50") = some (-12.50 : ℚ)
    ∧ parseAmount (some "") = none
    ∧ parseAmount (some "abc") = some 0 := by
  refine ⟨?_, ?_, rfl, by decide⟩
  · rw [show parseAmount (some "1.234,56")
        = some (((1234 : ℕ) : ℚ) + ((56 : ℕ) : ℚ) / (10 : ℚ) ^ (2 : ℕ)) from rfl]
    norm_num
  · rw [show parseAmount (some "-12,50")
        = some (-(((12 : ℕ) : ℚ) + ((50 : ℕ) : ℚ) / (10 : ℚ) ^ (2 : ℕ))) from rfl]
    norm_num

/-! ### Claim C6 -/

/-- Claim C6, counterexample: with an empty mapping configuration the mapped
row is the empty object, so it does not contain the four target fields. -/
theorem mapRows_missing_field_cex :
    mapRows [[("Datum", "x")]] [] = [[]]
    ∧ hasAllTargetFields (mapRowFields [] [("Datum", "x")]) = false := by
  decide

theorem mapRowFields_keys (mapping : MappingCfg) (r : Row) :
    (mapRowFields mapping r).map Prod.fst
      = (mapping.map Prod.fst).filter (fun f => f ≠ "__proto__") := by
  induction mapping with
  | nil => rfl
  | cons e rest ih =>
    by_cases h : e.1 = "__proto__" <;>
      simp_all [mapRowFields, List.filter_cons, Function.comp]

/-- Claim C6, amended: `mapRows` never raises (it is total) and each mapped
row carries exactly the fields that occur in the mapping configuration other
than `__proto__`, each a string; an entry whose rule is `null` yields the
empty string; a target field with no entry in the mapping is absent from the
mapped row rather than set to the empty string, and an entry named
`__proto__` is swallowed by the inherited `Object.prototype` setter, so that
field is likewise absent. -/
theorem mapRows_fields_follow_mapping (rows : List Row) (mapping : MappingCfg) :
    (∀ m ∈ mapRows rows mapping,
        m.map Prod.fst = (mapping.map Prod.fst).filter (fun f => f ≠ "__proto__"))
    ∧ (∀ r ∈ rows, ∀ tf, (tf, (none : Option MappingRule)) ∈ mapping →
        tf ≠ "__proto__" → (tf, "") ∈ mapRowFields mapping r)
    ∧ ∀ m ∈ mapRows rows mapping, "__proto__" ∉ m.map Prod.fst := by
  refine ⟨?_, ?_, ?_⟩
  · intro m hm
    obtain ⟨r, _, rfl⟩ := List.mem_map.1 hm
    exact mapRowFields_keys mapping r
  · intro r _ tf htf hne
    have h2 : (tf, (none : Option MappingRule))
        ∈ mapping.filter (fun e => e.1 ≠ "__proto__") := by
      rw [List.mem_filter]
      exact ⟨htf, by simpa using hne⟩
    have h3 := List.mem_map_of_mem (fun e => (e.1, applyRule r e.2)) h2
    simpa [mapRowFields, applyRule] using h3
  · intro m hm
    obtain ⟨r, _, rfl⟩ := List.mem_map.1 hm
    rw [mapRowFields_keys]
    simp

/-- Claim C6 witness: a mapping with a `date` rule, a `__proto__` rule and a
`null` `notes` rule produces exactly the `date` and `notes` fields, `notes`
being the empty string and `__proto__` absent. -/
theorem mapRows_fields_follow_mapping_witness :
    (mapRowFields [("date", some { type := "direct", column := some "Datum" }),
        ("__proto__", some { type := "direct", column := some "Datum" }),
        ("notes", none)] [("Datum", "x")]).map Prod.fst
      = (([("date", some { type := "direct", column := some "Datum" }),
          ("__proto__", some { type := "direct", column := some "Datum" }),
          ("notes", (none : Option MappingRule))].map Prod.fst).filter
            (fun f => f ≠ "__proto__"))
    ∧ ("notes", "") ∈ mapRowFields
        [("date", some { type := "direct", column := some "Datum" }),
         ("__proto__", some { type := "direct", column := some "Datum" }),
         ("notes", none)] [("Datum", "x")]
    ∧ "__proto__" ∉ (mapRowFields
        [("date", some { type := "direct", column := some "Datum" }),
         ("__proto__", some { type := "direct", column := some "Datum" }),
         ("notes", none)] [("Datum", "x")]).map Prod.fst := by
  have h := mapRows_fields_follow_mapping [[("Datum", "x")]]
    [("date", some { type := "direct", column := some "Datum" }),
     ("__proto__", some { type := "direct", column := some "Datum" }),
     ("notes", none)]
  exact ⟨h.1 _ (by decide),
    h.2.1 [("Datum", "x")] (by decide) "notes" (by decide) (by decide),
    h.2.2 _ (by decide)⟩

/-! ### Claim C9 -/

/-- Claim C9, counterexample: the cell value `"(leeg)"` is non-empty after
trimming, yet its group key is the empty-value sentinel `"(leeg)"`, and such
a row is merged into the sentinel group together with empty-valued rows. -/
theorem sentinel_collision_cex :
    normalizeCellValue (rowGet [("g", "(leeg)")] "g") ≠ ""
    ∧ keyOf "g" [("g", "(leeg)")] = "(leeg)"
    ∧ groupRows [[("g", "")], [("g", "(leeg)")]] (some "g")
        = some [("(leeg)", [[("g", "")], [("g", "(leeg)")]])] := by
  decide

/-- Claim C9, amended: a non-empty trimmed grouping value becomes the group
key verbatim, so the key avoids the sentinels exactly when the value is not
itself the literal string `"(leeg)"` respectively `"all"`; a cell whose text
is literally a sentinel does collide with that sentinel group. -/
theorem keyOf_sentinels_amended (c : String) (r : Row)
    (h : normalizeCellValue (rowGet r c) ≠ "") :
    keyOf c r = normalizeCellValue (rowGet r c)
    ∧ (normalizeCellValue (rowGet r c) ≠ "(leeg)" → keyOf c r ≠ "(leeg)")
    ∧ (normalizeCellValue (rowGet r c) ≠ "all" → keyOf c r ≠ "all") := by
  have h1 : keyOf c r = normalizeCellValue (rowGet r c) := by
    simp [keyOf, h]
  refine ⟨h1, fun h2 => ?_, fun h2 => ?_⟩
  · rw [h1]; exact h2
  · rw [h1]; exact h2

/-- Claim C9 witness: an ordinary value maps to itself and hits no sentinel. -/
theorem keyOf_sentinels_amended_witness :
    keyOf "g" [("g", "Spaarrekening")] = normalizeCellValue (rowGet [("g", "Spaarrekening")] "g")
    ∧ keyOf "g" [("g", "Spaarrekening")] ≠ "(leeg)"
    ∧ keyOf "g" [("g", "Spaarrekening")] ≠ "all" := by
  have h := keyOf_sentinels_amended "g" [("g", "Spaarrekening")] (by decide)
  exact ⟨h.1, h.2.1 (by decide), h.2.2 (by decide)⟩

/-! ### Claim C7 -/

/-- Claim C7, counterexample: a trimmed grouping value naming an
`Object.prototype` member makes the real `groupRows` throw a `TypeError`
(`!acc[groupKey]` reads the inherited truthy member, skips creating the
list, and `acc[groupKey].push` is not a function, App.jsx:872-875), so on
this input no partition of the rows is produced at all. -/
theorem groupRows_partitions_cex :
    groupRows [[("g", "toString")]] (some "g") = none := by
  decide

/-- Claim C7, amended: whenever `groupRows` completes without throwing (no
trimmed grouping value names an `Object.prototype` member) and the grouping
column itself is not a prototype member name (so the modelled cell read is a
plain own-property lookup), the result partitions the input: the
concatenation of the groups is a permutation of the input (each row
occurrence lands in exactly one group, none duplicated or dropped), the
group sizes sum to the input length, and each group is a sublist of the
input (rows keep their original relative order). -/
theorem groupRows_partitions (rows : List Row) (col : Option String)
    (G : List (String × List Row))
    ( _hpm : protoMember (col.getD "") = false)
    (hG : groupRows rows col = some G) :
    (G.map Prod.snd).flatten.Perm rows
    ∧ (G.map (fun p => p.2.length)).sum = rows.length
    ∧ ∀ p ∈ G, p.2.Sublist rows := by
  by_cases h : col.getD "" = ""
  · have hGe : G = [("all", rows)] := by
      simp only [groupRows, h, if_true, Option.some.injEq, if_pos] at hG
      exact hG.symm
    subst hGe
    refine ⟨?_, ?_, ?_⟩ <;> simp
  · have hG2 : groupRowsAux (col.getD "") rows [] = some G := by
      simpa [groupRows, h] using hG
    have hfold := groupRowsAux_eq_foldl (col.getD "") rows [] G hG2
    subst hfold
    have hperm : (((rows.foldl (fun a r => upsert a (keyOf (col.getD "") r) r) []).map
        Prod.snd).flatten).Perm rows := by
      simpa using foldl_upsert_join_perm (col.getD "") rows []
    refine ⟨hperm, ?_, ?_⟩
    · have hlen := hperm.length_eq
      rw [List.length_flatten, List.map_map] at hlen
      simpa [Function.comp] using hlen
    · intro p hp
      have hnd : ((rows.foldl (fun a r => upsert a (keyOf (col.getD "") r) r) []).map
          Prod.fst).Nodup :=
        foldl_upsert_keys_nodup (col.getD "") rows [] (by simp)
      have h1 : getGroup (rows.foldl (fun a r => upsert a (keyOf (col.getD "") r) r) []) p.1
          = p.2 := getGroup_of_mem _ hnd p hp
      have h2 : getGroup (rows.foldl (fun a r => upsert a (keyOf (col.getD "") r) r) []) p.1
          = rows.filter (fun r => keyOf (col.getD "") r == p.1) := by
        simpa using getGroup_foldl (col.getD "") rows [] p.1
      rw [← h1, h2]
      exact List.filter_sublist rows

/-- Claim C7 witness: a concrete three-row grouping that completes, with the
sublist fact extracted for the group of key `"a"`. -/
theorem groupRows_partitions_witness :
    (([("a", [[("g", "a")], [("g", "a")]]), ("b", [[("g", "b")]])].map
        Prod.snd).flatten).Perm [[("g", "a")], [("g", "b")], [("g", "a")]]
    ∧ ([[("g", "a")], [("g", "a")]] : List Row).Sublist
        [[("g", "a")], [("g", "b")], [("g", "a")]] := by
  have h := groupRows_partitions [[("g", "a")], [("g", "b")], [("g", "a")]] (some "g")
    [("a", [[("g", "a")], [("g", "a")]]), ("b", [[("g", "b")]])] (by decide) (by decide)
  exact ⟨h.1, h.2.2 ("a", [[("g", "a")], [("g", "a")]]) (by decide)⟩

/-! ### Claim C8 -/

/-- Claim C8, counterexample: with grouping-column values `"2"` then `"1"`,
grouping completes and the orchestrator's enumeration of the grouping object
yields the keys in ascending numeric order `["1", "2"]`, not in first-seen
order `["2", "1"]`: JavaScript objects enumerate array-index keys first,
numerically. -/
theorem groupRows_enum_order_cex :
    groupRows [[("g", "2")], [("g", "1")]] (some "g")
        = some [("2", [[("g", "2")]]), ("1", [[("g", "1")]])]
    ∧ (jsEntries [("2", [[("g", "2")]]), ("1", [[("g", "1")]])]).map Prod.fst = ["1", "2"]
    ∧ firstSeen ([[("g", "2")], [("g", "1")]].map (keyOf "g")) = ["2", "1"]
    ∧ (["1", "2"] : List String) ≠ ["2", "1"] := by
  decide

/-- Claim C8, amended: when grouping completes without throwing (no trimmed
value names an `Object.prototype` member), the grouping column is not a
prototype member name, and no group key is an array-index string (the
canonical decimal form of an integer below 2^32 - 1), the enumerated group
keys appear in first-seen order; array-index keys are instead enumerated
first, in ascending numeric order.  With no grouping column the result is
exactly one group, under the fixed sentinel key `"all"`, holding all rows in
order. -/
theorem groupRows_first_seen_amended (rows : List Row) (c : String)
    (G : List (String × List Row)) (hc : c ≠ "")
    ( _hpm : protoMember c = false)
    (hG : groupRows rows (some c) = some G)
    (hnoidx : ∀ p ∈ G, isArrayIndex p.1 = false) :
    (jsEntries G).map Prod.fst = firstSeen (rows.map (keyOf c))
    ∧ ∀ rows2 : List Row, groupRows rows2 none = some [("all", rows2)]
        ∧ jsEntries [("all", rows2)] = [("all", rows2)] := by
  constructor
  · rw [jsEntries_eq_self _ hnoidx]
    have hG2 : groupRowsAux c rows [] = some G := by
      simpa [groupRows, hc] using hG
    have hfold := groupRowsAux_eq_foldl c rows [] G hG2
    subst hfold
    simpa using foldl_upsert_keys c rows []
  · intro rows2
    have hall : isArrayIndex "all" = false := by decide
    exact ⟨by simp [groupRows], jsEntries_eq_self _ (by simp [hall])⟩

/-- Claim C8 witness: non-numeric keys `"b"`, `"a"` enumerate in first-seen
order, and the no-column case gives the single `"all"` group. -/
theorem groupRows_first_seen_amended_witness :
    (jsEntries [("b", [[("g", "b")], [("g", "b")]]), ("a", [[("g", "a")]])]).map Prod.fst
      = firstSeen ([[("g", "b")], [("g", "a")], [("g", "b")]].map (keyOf "g"))
    ∧ groupRows [row₀] none = some [("all", [row₀])]
    ∧ jsEntries [("all", [row₀])] = [("all", [row₀])] := by
  have h := groupRows_first_seen_amended [[("g", "b")], [("g", "a")], [("g", "b")]] "g"
    [("b", [[("g", "b")], [("g", "b")]]), ("a", [[("g", "a")]])]
    (by decide) (by decide) (by decide) (by decide)
  exact ⟨h.1, h.2 [row₀]⟩

/-! ### Helper lemmas about the orchestrator -/

theorem mock_false_of_ne (env : Env) (h : env.MOCK_ACTUAL ≠ some "true") :
    (env.MOCK_ACTUAL == some "true") = false := by
  simpa using h

theorem processGroups_calls_prefix (env : Env) (ledger : ℕ → LedgerCall → Bool × String)
    (dry : Bool) (mapping : MappingCfg) (am : Option (List (String × String)))
    (acfg : Option ActualCfg) :
    ∀ (gs : List (String × List Row)) (acc : List GroupResult)
      (calls : List LedgerCall) (idx : ℕ),
      calls <+: (processGroups env ledger dry mapping am acfg gs acc calls idx).2 := by
  intro gs
  induction gs with
  | nil => intro acc calls idx; simp [processGroups]
  | cons g rest ih =>
    intro acc calls idx
    obtain ⟨k, grows⟩ := g
    by_cases h1 : (dry || env.MOCK_ACTUAL == some "true") = true
    · simpa [processGroups, h1] using ih _ calls idx
    · by_cases h2 : resolvedServerUrl acfg env = ""
      · simp [processGroups, h1, h2]
      · cases hacc : resolveAccount am k with
        | none => simp [processGroups, h1, h2, hacc]
        | some aid =>
          by_cases h3 : (ledger idx (groupCall env acfg mapping aid grows)).1 = true
          · simp only [processGroups, h1, h2, hacc, h3, Bool.false_eq_true,
              if_false, if_true, if_neg h2]
            exact (List.prefix_append calls _).trans (ih _ _ _)
          · simp only [processGroups, h1, h2, hacc, h3, Bool.false_eq_true,
              if_false, if_true, if_neg h2]
            exact List.prefix_append calls _

theorem processGroups_dry (env : Env) (ledger : ℕ → LedgerCall → Bool × String)
    (mapping : MappingCfg) (am : Option (List (String × String)))
    (acfg : Option ActualCfg) :
    ∀ (gs : List (String × List Row)) (acc : List GroupResult)
      (calls : List LedgerCall) (idx : ℕ),
      processGroups env ledger true mapping am acfg gs acc calls idx
        = (.ok true (acc ++ gs.map (fun g => mkGroupResult mapping am g.1 g.2))
            (((acc ++ gs.map (fun g => mkGroupResult mapping am g.1 g.2)).map
                GroupResult.transactionCount).sum)
            (((acc ++ gs.map (fun g => mkGroupResult mapping am g.1 g.2)).map
                GroupResult.invalidCount).sum), calls) := by
  intro gs
  induction gs with
  | nil => intro acc calls idx; simp [processGroups]
  | cons g rest ih =>
    intro acc calls idx
    obtain ⟨k, grows⟩ := g
    simp only [processGroups, Bool.true_or, if_true]
    rw [ih]
    simp

/-! ### Claim C1 -/

/-- Claim C1: a dry-run request never issues a ledger transaction-import
call, whatever the rows, mapping, grouping column and account mapping, so
the outcome can never be the 502 ledger-failure response (this also covers
the inputs on which `groupRows` throws: the handler then rejects with no
response and still no call). -/
theorem dry_run_never_calls_ledger (env : Env)
    (ledger : ℕ → LedgerCall → Bool × String) (req : ImportRequest)
    (h : req.dryRun = some true) :
    (handleImport env ledger req).2 = []
    ∧ ∀ e d, (handleImport env ledger req).1 ≠ some (ImportOutcome.ledgerFailed e d) := by
  unfold handleImport
  cases hm : req.mapping with
  | none => simp
  | some mapping =>
    cases hg : groupRows req.rows req.groupByColumn with
    | none => simp
    | some grouped =>
      have hd : req.dryRun.getD true = true := by rw [h]; rfl
      rw [hd]
      dsimp only
      rw [processGroups_dry]
      simp

/-- Claim C1 witness: a concrete dry-run request with an incomplete account
mapping issues no call and does not fail. -/
theorem dry_run_never_calls_ledger_witness :
    (handleImport env₀ ledgerFail
        { rows := [row₀], mapping := some mapping₀, groupByColumn := some "Naam",
          accountMapping := none, dryRun := some true, actualConfig := none }).2 = []
    ∧ ∀ e d, (handleImport env₀ ledgerFail
        { rows := [row₀], mapping := some mapping₀, groupByColumn := some "Naam",
          accountMapping := none, dryRun := some true, actualConfig := none }).1
      ≠ some (ImportOutcome.ledgerFailed e d) :=
  dry_run_never_calls_ledger env₀ ledgerFail _ rfl

/-! ### Claim C10 -/

/-- Claim C10: when the `dryRun` field is absent the destructuring default
makes the request a dry run: no ledger call is issued and a summary response
reports `dryRun = true`. -/
theorem dry_run_default (env : Env)
    (ledger : ℕ → LedgerCall → Bool × String) (req : ImportRequest)
    (h : req.dryRun = none) :
    (handleImport env ledger req).2 = []
    ∧ ∀ b gs t i, (handleImport env ledger req).1 = some (ImportOutcome.ok b gs t i) →
        b = true := by
  unfold handleImport
  cases hm : req.mapping with
  | none => simp
  | some mapping =>
    cases hg : groupRows req.rows req.groupByColumn with
    | none => simp
    | some grouped =>
      have hd : req.dryRun.getD true = true := by rw [h]; rfl
      rw [hd]
      dsimp only
      rw [processGroups_dry]
      simp

/-- Claim C10 witness: a request without `dryRun` stays a dry run. -/
theorem dry_run_default_witness :
    (handleImport env₀ ledgerFail
        { rows := [row₀], mapping := some mapping₀, dryRun := none }).2 = []
    ∧ ∀ b gs t i, (handleImport env₀ ledgerFail
        { rows := [row₀], mapping := some mapping₀, dryRun := none }).1
      = some (ImportOutcome.ok b gs t i) → b = true :=
  dry_run_default env₀ ledgerFail _ rfl

/-! ### Claim C2 -/

/-- Claim C2: in live mode, when the orchestrator reaches a group whose
account resolves (server URL present, mock off), it issues the ledger call
for that group, and the call carries exactly the group transactions passing
validation — with no condition on that filtered list, so the call is issued
even when the list is empty. -/
theorem live_resolved_group_call (env : Env)
    (ledger : ℕ → LedgerCall → Bool × String) (mapping : MappingCfg)
    (am : Option (List (String × String))) (acfg : Option ActualCfg)
    (k : String) (grows : List Row) (rest : List (String × List Row))
    (acc : List GroupResult) (calls : List LedgerCall) (idx : ℕ) (aid : String)
    (hmock : env.MOCK_ACTUAL ≠ some "true")
    (hurl : resolvedServerUrl acfg env ≠ "")
    (hacct : resolveAccount am k = some aid) :
    (groupCall env acfg mapping aid grows).transactions
        = (normalizeGroup mapping grows).filter validTx
    ∧ (calls ++ [groupCall env acfg mapping aid grows]) <+:
        (processGroups env ledger false mapping am acfg ((k, grows) :: rest)
          acc calls idx).2 := by
  refine ⟨rfl, ?_⟩
  have hmock2 := mock_false_of_ne env hmock
  by_cases h3 : (ledger idx (groupCall env acfg mapping aid grows)).1 = true
  · simp only [processGroups, hmock2, Bool.or_false, Bool.false_eq_true, if_false,
      if_neg hurl, hacct, h3, if_true]
    exact processGroups_calls_prefix env ledger false mapping am acfg _ _ _ _
  · simp only [processGroups, hmock2, Bool.or_false, Bool.false_eq_true, if_false,
      if_neg hurl, hacct, h3]
    exact List.prefix_refl _

/-- Claim C2 witness: a group whose only transaction fails validation (no
date) still gets its ledger call, with an empty transaction list. -/
theorem live_resolved_group_call_witness :
    (groupCall env₀ (some cfg₀) mapping₀ "acc1" [rowNoDate]).transactions
        = (normalizeGroup mapping₀ [rowNoDate]).filter validTx
    ∧ ([] ++ [groupCall env₀ (some cfg₀) mapping₀ "acc1" [rowNoDate]]) <+:
        (processGroups env₀ ledgerOk false mapping₀ (some [("k1", "acc1")])
          (some cfg₀) [("k1", [rowNoDate])] [] [] 0).2
    ∧ (normalizeGroup mapping₀ [rowNoDate]).filter validTx = [] := by
  have h := live_resolved_group_call env₀ ledgerOk mapping₀ (some [("k1", "acc1")])
    (some cfg₀) "k1" [rowNoDate] [] [] [] 0 "acc1" (by decide) (by decide) (by decide)
  exact ⟨h.1, h.2, by decide⟩

/-! ### Claim C3 -/

/-- Claim C3: in live mode, when the ledger call issued for a reached group
fails, the orchestrator aborts immediately: the response is only the 502
failure payload (the accumulated `GroupResult` list is discarded — the
outcome carries no groups), and no further group is processed, whatever
groups remain. -/
theorem live_ledger_failure_aborts (env : Env)
    (ledger : ℕ → LedgerCall → Bool × String) (mapping : MappingCfg)
    (am : Option (List (String × String))) (acfg : Option ActualCfg)
    (k : String) (grows : List Row) (rest : List (String × List Row))
    (acc : List GroupResult) (calls : List LedgerCall) (idx : ℕ) (aid : String)
    (hmock : env.MOCK_ACTUAL ≠ some "true")
    (hurl : resolvedServerUrl acfg env ≠ "")
    (hacct : resolveAccount am k = some aid)
    (hfail : (ledger idx (groupCall env acfg mapping aid grows)).1 = false) :
    processGroups env ledger false mapping am acfg ((k, grows) :: rest) acc calls idx
      = (ImportOutcome.ledgerFailed (ledgerFailedMsg k)
          (ledger idx (groupCall env acfg mapping aid grows)).2,
        calls ++ [groupCall env acfg mapping aid grows]) := by
  have hmock2 := mock_false_of_ne env hmock
  simp [processGroups, hmock2, hurl, hacct, hfail]

/-- Claim C3 witness: three groups, the second group's call fails — the
result is exactly the failure payload plus the two calls made, group 3 never
attempted. -/
theorem live_ledger_failure_aborts_witness :
    processGroups env₀ ledgerFail false mapping₀
        (some [("k1", "acc1"), ("k2", "acc2"), ("k3", "acc3")]) (some cfg₀)
        [("k2", [row₀]), ("k3", [row₀])]
        [mkGroupResult mapping₀ (some [("k1", "acc1"), ("k2", "acc2"), ("k3", "acc3")]) "k1" [row₀]]
        [groupCall env₀ (some cfg₀) mapping₀ "acc1" [row₀]] 1
      = (ImportOutcome.ledgerFailed (ledgerFailedMsg "k2")
          (ledgerFail 1 (groupCall env₀ (some cfg₀) mapping₀ "acc2" [row₀])).2,
        [groupCall env₀ (some cfg₀) mapping₀ "acc1" [row₀]]
          ++ [groupCall env₀ (some cfg₀) mapping₀ "acc2" [row₀]]) :=
  live_ledger_failure_aborts env₀ ledgerFail mapping₀
    (some [("k1", "acc1"), ("k2", "acc2"), ("k3", "acc3")]) (some cfg₀)
    "k2" [row₀] [("k3", [row₀])] _ _ 1 "acc2" (by decide) (by decide) (by decide) rfl

/-! ### Claim C4 -/

/-- Claim C4: in live mode a reached group whose key resolves to no account
(absent or empty entry) makes the whole request fail with the
missing-account 400 error before any ledger call for that group, and nothing
after it is processed; in dry-run mode the same situation is legal — the
group is processed and the run ends in a summary response with no call. -/
theorem missing_account_aborts_live_legal_dry (env : Env)
    (ledger : ℕ → LedgerCall → Bool × String) (mapping : MappingCfg)
    (am : Option (List (String × String))) (acfg : Option ActualCfg)
    (k : String) (grows : List Row) (rest : List (String × List Row))
    (acc : List GroupResult) (calls : List LedgerCall) (idx : ℕ)
    (hacct : resolveAccount am k = none) :
    (env.MOCK_ACTUAL ≠ some "true" → resolvedServerUrl acfg env ≠ "" →
      processGroups env ledger false mapping am acfg ((k, grows) :: rest) acc calls idx
        = (ImportOutcome.badRequest (missingAccountMsg k), calls))
    ∧ ∃ gs t i,
        processGroups env ledger true mapping am acfg ((k, grows) :: rest) acc calls idx
          = (ImportOutcome.ok true gs t i, calls) := by
  constructor
  · intro hmock hurl
    have hmock2 := mock_false_of_ne env hmock
    simp [processGroups, hmock2, hurl, hacct]
  · rw [processGroups_dry]
    exact ⟨_, _, _, rfl⟩

/-- Claim C4 witness: with an empty account mapping, live mode aborts with
the missing-account error and no call, dry-run mode succeeds. -/
theorem missing_account_aborts_live_legal_dry_witness :
    (processGroups env₀ ledgerOk false mapping₀ none (some cfg₀)
        [("k1", [row₀])] [] [] 0
      = (ImportOutcome.badRequest (missingAccountMsg "k1"), []))
    ∧ ∃ gs t i,
        processGroups env₀ ledgerOk true mapping₀ none (some cfg₀)
          [("k1", [row₀])] [] [] 0
          = (ImportOutcome.ok true gs t i, []) := by
  have h := missing_account_aborts_live_legal_dry env₀ ledgerOk mapping₀ none
    (some cfg₀) "k1" [row₀] [] [] [] 0 rfl
  exact ⟨h.1 (by decide) (by decide), h.2⟩

end Actualimporter
